import Mathlib

/-
Shallow embedding of git-web-exporter (src/main.py), a tool that converts a
repository commit history into a static website.

The program uses external libraries; these are modelled as follows.
- GitPython: a repository is a list of commits in the native newest-first
  iteration order of repo.iter_commits(); each commit carries its message,
  its identifier (hexsha) and its tree (a list of blobs). commit.diff(rev)
  is modelled by treeDiff: per the GitPython Diff convention, the a side of
  each diff entry comes from the object the method is called on (here the
  current commit) and the b side from the argument (here the previous
  revision); an entry whose a side is absent is what GitPython calls a new
  file. Rename detection is not modelled: a renamed file appears as one
  absent-side entry per path.
- difflib.unified_diff, jinja2 Template.render, markdown and slugify are
  kept abstract: they enter as function parameters (UDiff, TemplateFn,
  Markdown, Slugifier), since the claims only concern which arguments the
  program passes to them.
- Python str.split with a one-character separator is splitLines, str.join
  is joinWith, str.startswith is startsWithStr, implemented by structural
  recursion over the character lists so that they evaluate by rfl.
-/

set_option autoImplicit false

namespace GitWebExporter

/-- Python list.split semantics for the separator given one character at a
time: splitting on a single character, keeping empty pieces. -/
def splitLinesAux (sep : Char) : List Char → List Char → List String
  | acc, [] => [String.mk acc.reverse]
  | acc, c :: cs =>
      if c = sep then String.mk acc.reverse :: splitLinesAux sep [] cs
      else splitLinesAux sep (c :: acc) cs

/-- Python message.split with separator a line break, as used on line 31 of
main.py. -/
def splitLines (s : String) : List String :=
  splitLinesAux '\n' [] s.data

/-- Python sep.join over a list of strings. -/
def joinWith (sep : String) : List String → String
  | [] => ""
  | [x] => x
  | x :: y :: xs => x ++ sep ++ joinWith sep (y :: xs)

/-- Boolean test that one character list is an initial segment of another. -/
def listLeads : List Char → List Char → Bool
  | [], _ => true
  | _ :: _, [] => false
  | a :: as, b :: bs => a == b && listLeads as bs

/-- Python s.startswith with argument pre. -/
def startsWithStr (pre s : String) : Bool :=
  listLeads pre.data s.data

/-- A git blob as the program sees it: its path inside the tree, the MIME
type GitPython guesses for it, and its UTF-8 decoded content. -/
structure Blob where
  path : String
  mime_type : String
  content : String
deriving Repr, DecidableEq

/-- A commit: its message, its hexsha identifier, and its tree. -/
structure Commit where
  message : String
  hexsha : String
  tree : List Blob
deriving Repr, DecidableEq, Inhabited

/-- One entry of commit.diff(rev): the a side belongs to the commit the
method is called on (the current commit of the loop in main.py), the b side
to the argument (the previous revision). At least one side is present in
any entry GitPython produces. -/
structure DiffEntry where
  a_blob : Option Blob
  b_blob : Option Blob
deriving Repr, DecidableEq

/-- Find the blob at a path inside a tree. -/
def lookupBlob (tree : List Blob) (p : String) : Option Blob :=
  tree.find? (fun b => b.path == p)

/-- Model of commit.diff(rev) for cur the tree of the current commit and
prev the tree of the previous revision: one entry per path whose content
differs, a side from cur, b side from prev. -/
def treeDiff (cur prev : List Blob) : List DiffEntry :=
  (cur.filterMap fun b =>
    match lookupBlob prev b.path with
    | none => some ⟨some b, none⟩
    | some pb => if pb = b then none else some ⟨some b, some pb⟩) ++
  (prev.filterMap fun pb =>
    match lookupBlob cur pb.path with
    | none => some ⟨none, some pb⟩
    | some _ => none)

/-- The type of the difflib.unified_diff routine: from lines, to lines,
fromfile label, tofile label, yielding the diff lines. -/
abbrev UDiff := List String → List String → String → String → List String

/-- One change record of a commit: the dict with keys path and diff built
on line 73 of main.py. -/
structure FileChange where
  path : String
  diff : String
deriving Repr, DecidableEq

/-- One commit record: the dict built on lines 75 to 82 of main.py. -/
structure CommitRecord where
  title : String
  hash : String
  body : String
  changes : List FileChange
deriving Repr, DecidableEq, Inhabited

/-- The body of the inner loop of extract_repo_data (lines 36 to 73): the
two MIME-type guards that skip binary content, then the three-way branch on
which sides are present, then the unified_diff call
unified_diff(modified, original, blob_path, blob_path) joined with line
breaks. The branch comments mirror the source; a both-absent entry is never
produced by a diff, so it yields no change. -/
def processEntry (ud : UDiff) (e : DiffEntry) : Option FileChange :=
  if e.a_blob.any (fun b => !(startsWithStr "text" b.mime_type)) then none
  else if e.b_blob.any (fun b => !(startsWithStr "text" b.mime_type)) then none
  else
    match e.a_blob, e.b_blob with
    | none, some b =>
        some ⟨b.path, joinWith "\n" (ud (splitLines b.content) [] b.path b.path)⟩
    | some a, none =>
        some ⟨a.path, joinWith "\n" (ud [] (splitLines a.content) a.path a.path)⟩
    | some a, some b =>
        some ⟨a.path, joinWith "\n"
          (ud (splitLines b.content) (splitLines a.content) a.path a.path)⟩
    | none, none => none

/-- The line sequence a side of a diff contributes: the blob content split
on line breaks when the blob is present, the empty sequence otherwise. -/
def optLines : Option Blob → List String
  | none => []
  | some b => splitLines b.content

/-- The body of the outer loop of extract_repo_data for one commit: the
unpacking assignment title, _, *body = commit.message.split of line 31,
which raises ValueError when the split has fewer than two elements, then
the record assembled on lines 75 to 82. -/
def commitRecord (ud : UDiff) (prevTree : List Blob) (c : Commit) :
    Option CommitRecord :=
  match splitLines c.message with
  | title :: _ :: body =>
      some { title := title
             hash := c.hexsha
             body := joinWith "\n" body
             changes := (treeDiff c.tree prevTree).filterMap (processEntry ud) }
  | _ => none

/-- The outer loop of extract_repo_data, threading the previous revision
(initially the empty tree) through the commits, aborting with the Python
ValueError on a message whose split has fewer than two elements. -/
def extractLoop (ud : UDiff) (prevTree : List Blob) :
    List Commit → Except String (List CommitRecord)
  | [] => .ok []
  | c :: cs =>
      match commitRecord ud prevTree c with
      | none => .error "ValueError: not enough values to unpack"
      | some r =>
          match extractLoop ud c.tree cs with
          | .error e => .error e
          | .ok rs => .ok (r :: rs)

/-- extract_repo_data of main.py: reverse the native newest-first commit
iteration, start from the empty-tree revision, and collect one record per
commit. -/
def extract_repo_data (ud : UDiff) (repo : List Commit) :
    Except String (List CommitRecord) :=
  extractLoop ud [] repo.reverse

/-- A table-of-contents entry: the dict built on line 113 of main.py. -/
structure TocEntry where
  title : String
  path : String
deriving Repr, DecidableEq

/-- The context dict assembled on lines 131 to 137 of main.py and handed to
the jinja2 template. -/
structure TemplateContext where
  title : String
  hash : String
  body : String
  toc : List TocEntry
  changes : List FileChange
deriving Repr, DecidableEq

/-- The type of the jinja2 template render call with the context dict. -/
abbrev TemplateFn := TemplateContext → String

/-- The type of the markdown rendering routine of the markdown library. -/
abbrev Markdown := String → String

/-- The type of the slugify routine of the slugify library. -/
abbrev Slugifier := String → String

/-- render_markdown of main.py: it delegates to the markdown library with
the codehilite and fenced_code extensions, modelled by the parameter. -/
def render_markdown (markdownFn : Markdown) (md_content : String) : String :=
  markdownFn md_content

/-- One file write performed by render_repo_data, tagged by the write site:
the stylesheet copy of line 105, a commit page write of line 139, or the
index write of line 144. -/
inductive FsWrite where
  | styles (content : String)
  | page (filename : String) (content : String)
  | index (content : String)
deriving Repr, DecidableEq

/-- The filename a write goes to. -/
def FsWrite.fileName : FsWrite → String
  | .styles _ => "styles.css"
  | .page n _ => n
  | .index _ => "index.html"

/-- The content a write carries. -/
def FsWrite.contentOf : FsWrite → String
  | .styles c => c
  | .page _ c => c
  | .index c => c

/-- Whether a write is the index.html write of line 144. -/
def FsWrite.isIndexWrite : FsWrite → Bool
  | .index _ => true
  | _ => false

/-- Whether a write is a commit page write of line 139. -/
def FsWrite.isPageWrite : FsWrite → Bool
  | .page _ _ => true
  | _ => false

/-- The final content of a file after a sequence of writes: the last write
to that filename wins, as on a filesystem. -/
def finalContent (ws : List FsWrite) (name : String) : Option String :=
  (ws.reverse.find? fun w => w.fileName == name).map FsWrite.contentOf

/-- The filename built on line 117 of main.py: slugify(title) + ".html". -/
def html_filename (slugify : Slugifier) (title : String) : String :=
  slugify title ++ ".html"

/-- The table of contents built on lines 109 to 113 of main.py: one entry
per record, in order, with path "./" + slugify(title) + ".html". -/
def buildToc (slugify : Slugifier) (data : List CommitRecord) : List TocEntry :=
  data.map fun page => ⟨page.title, "./" ++ html_filename slugify page.title⟩

/-- Lines 121 to 129 of main.py: a fresh dict per change, whose diff is the
markdown rendering of the original diff wrapped in a fenced code block
tagged diff. -/
def renderChange (md : Markdown) (change : FileChange) : FileChange :=
  ⟨change.path, render_markdown md ("``` diff\n" ++ change.diff ++ "\n```")⟩

/-- The context dict of lines 131 to 137 of main.py for one record. -/
def pageContext (md : Markdown) (toc : List TocEntry) (page : CommitRecord) :
    TemplateContext :=
  { title := page.title
    hash := page.hash
    body := render_markdown md page.body
    toc := toc
    changes := page.changes.map (renderChange md) }

/-- The write of line 139 of main.py for one record. -/
def pageWrite (tmpl : TemplateFn) (md : Markdown) (slugify : Slugifier)
    (toc : List TocEntry) (page : CommitRecord) : FsWrite :=
  .page (html_filename slugify page.title) (tmpl (pageContext md toc page))

/-- The second loop of render_repo_data (lines 115 to 146): write each page,
and after the page write of the first record also write index.html with the
same rendered content, clearing the generate_index flag. -/
def renderLoop (tmpl : TemplateFn) (md : Markdown) (slugify : Slugifier)
    (toc : List TocEntry) : Bool → List CommitRecord → List FsWrite
  | _, [] => []
  | generate_index, page :: rest =>
      pageWrite tmpl md slugify toc page ::
        (if generate_index then
          [FsWrite.index (tmpl (pageContext md toc page))]
         else []) ++
        renderLoop tmpl md slugify toc false rest

/-- render_repo_data of main.py: copy the stylesheet, build the table of
contents once, then run the page loop with the generate_index flag set.

The first component is the sequence of file writes performed; the second is
the record list as it stands when the function returns, which the source
never mutates: the loop of lines 121 to 129 builds fresh change dicts
rather than writing into the extracted ones. -/
def render_repo_data (tmpl : TemplateFn) (md : Markdown) (slugify : Slugifier)
    (stylesContent : String) (data : List CommitRecord) :
    List FsWrite × List CommitRecord :=
  (FsWrite.styles stylesContent ::
    renderLoop tmpl md slugify (buildToc slugify data) true data,
   data)

/-- The observable outcome of main: what was printed to standard output and
standard error, the early exit code if any, and the extraction and
rendering pipeline result when the argument checks pass (none when the
pipeline never starts). -/
structure MainTrace where
  stdoutMsg : Option String
  stderrMsg : Option String
  earlyExitCode : Option Nat
  pipeline : Option (Except String (List FsWrite × List CommitRecord))
deriving Repr

/-- main of main.py (lines 161 to 175): with fewer than two argv entries,
print to standard output and exit 1; with a repository path that does not
exist, print to standard error and exit 1; otherwise run extraction and
rendering. The filesystem and the repository at a path are parameters. -/
def main (argv : List String) (pathExists : String → Bool)
    (repoAt : String → List Commit) (ud : UDiff) (tmpl : TemplateFn)
    (md : Markdown) (slugify : Slugifier) (stylesContent : String) :
    MainTrace :=
  match argv with
  | _ :: repo :: _ =>
      if !(pathExists repo) then
        ⟨none, some (repo ++ " doesn\x27t exist"), some 1, none⟩
      else
        ⟨none, none, none,
          some ((extract_repo_data ud (repoAt repo)).map
            (render_repo_data tmpl md slugify stylesContent))⟩
  | _ => ⟨some "Please provider a repo\n", none, some 1, none⟩

/-! Concrete fixtures used to instantiate the theorems below. -/

/-- A diff routine that ignores the labels and returns nothing; any value
of type UDiff works for the structural theorems. -/
def udEmpty : UDiff := fun _ _ _ _ => []

/-- A diff routine that records which argument was passed as the from side
and which as the to side, so the two orders are distinguishable. -/
def udTag : UDiff := fun a b _ _ => "FROM" :: a ++ "TO" :: b

/-- A first demo commit adding f.txt with content x. -/
def c1demo : Commit :=
  ⟨"init\n\nfirst", "hash1", [⟨"f.txt", "text/plain", "x"⟩]⟩

/-- A second demo commit changing f.txt to content y. -/
def c2demo : Commit :=
  ⟨"second\n\nmore", "hash2", [⟨"f.txt", "text/plain", "y"⟩]⟩

/-- A demo repository in the native newest-first iteration order. -/
def repoDemo : List Commit := [c2demo, c1demo]

/-- The records extract_repo_data yields on repoDemo with udTag. -/
def recsDemo : List CommitRecord :=
  [⟨"init", "hash1", "first", [⟨"f.txt", "FROM\nTO\nx"⟩]⟩,
   ⟨"second", "hash2", "more", [⟨"f.txt", "FROM\nx\nTO\ny"⟩]⟩]

/-- A demo template: title and body separated by a bar. -/
def tmpl0 : TemplateFn := fun ctx => ctx.title ++ "|" ++ ctx.body

/-- A demo markdown renderer: the identity. -/
def md0 : Markdown := fun s => s

/-- A demo slugifier: the identity. -/
def slug0 : Slugifier := fun s => s

end GitWebExporter

namespace GitWebExporter

/-! Helper lemmas about the extractor. -/

/-- A record produced for a commit carries the hexsha of that commit. -/
theorem commitRecord_hash {ud : UDiff} {t : List Blob} {c : Commit}
    {r : CommitRecord} (h : commitRecord ud t c = some r) :
    r.hash = c.hexsha := by
  unfold commitRecord at h
  rcases hs : splitLines c.message with _ | ⟨a, _ | ⟨b, rest⟩⟩ <;> rw [hs] at h
  · cases h
  · cases h
  · cases h
    rfl

/-- A record is produced for a commit exactly when the split of its message
has at least two elements. -/
theorem commitRecord_isSome_iff {ud : UDiff} {t : List Blob} {c : Commit} :
    (commitRecord ud t c).isSome = true ↔
      2 ≤ (splitLines c.message).length := by
  unfold commitRecord
  rcases splitLines c.message with _ | ⟨a, _ | ⟨b, rest⟩⟩ <;> simp

/-- The loop of extract_repo_data yields one record per commit, in order,
each carrying the hexsha of its commit. -/
theorem extractLoop_length_hash (ud : UDiff) :
    ∀ (cs : List Commit) (t : List Blob) (rs : List CommitRecord),
      extractLoop ud t cs = .ok rs →
      rs.length = cs.length ∧
        ∀ k (hk : k < rs.length) (hk' : k < cs.length),
          (rs.get ⟨k, hk⟩).hash = (cs.get ⟨k, hk'⟩).hexsha := by
  intro cs
  induction cs with
  | nil =>
      intro t rs h
      rw [extractLoop] at h
      cases h
      exact ⟨rfl, fun k hk _ => absurd hk (Nat.not_lt_zero k)⟩
  | cons c cs ih =>
      intro t rs h
      rw [extractLoop] at h
      cases hrec : commitRecord ud t c with
      | none => rw [hrec] at h; cases h
      | some r =>
          rw [hrec] at h
          cases hrest : extractLoop ud c.tree cs with
          | error e => rw [hrest] at h; cases h
          | ok rs' =>
              rw [hrest] at h
              cases h
              obtain ⟨hlen, hget⟩ := ih c.tree rs' hrest
              refine ⟨by simp [hlen], ?_⟩
              intro k hk hk'
              cases k with
              | zero => exact commitRecord_hash hrec
              | succ n =>
                  exact hget n (Nat.lt_of_succ_lt_succ hk)
                    (Nat.lt_of_succ_lt_succ hk')

/-! C1 -/

/-- C1: when extraction succeeds, extract_repo_data produces exactly one
CommitRecord per commit of the repository, ordered oldest to newest, that
is along the reverse of the native newest-first iteration, and the record
at every index carries the identifier of the commit at the same index of
that oldest-first order. -/
theorem extract_counts_and_orders_commits (ud : UDiff) (repo : List Commit)
    (recs : List CommitRecord) (h : extract_repo_data ud repo = .ok recs) :
    recs.length = repo.length ∧
      ∀ k (hk : k < recs.length) (hk' : k < repo.reverse.length),
        (recs.get ⟨k, hk⟩).hash = (repo.reverse.get ⟨k, hk'⟩).hexsha := by
  obtain ⟨hlen, hget⟩ := extractLoop_length_hash ud repo.reverse [] recs h
  exact ⟨by simpa using hlen, hget⟩

/-- C1 witness: on the two-commit demo repository the extraction succeeds,
yields two records, and the first record carries the identifier of the
oldest commit. -/
theorem extract_counts_and_orders_commits_witness :
    recsDemo.length = repoDemo.length ∧
      recsDemo.headI.hash = repoDemo.reverse.headI.hexsha := by
  have h := extract_counts_and_orders_commits udTag repoDemo recsDemo rfl
  exact ⟨h.1, h.2 0 (by decide) (by decide)⟩

/-! C10 helpers -/

/-- Splitting a character list yields one more piece than the number of
separator occurrences. -/
theorem splitLinesAux_length (sep : Char) :
    ∀ (l acc : List Char), (splitLinesAux sep acc l).length = l.count sep + 1 := by
  intro l
  induction l with
  | nil => intro acc; simp [splitLinesAux]
  | cons c cs ih =>
      intro acc
      by_cases h : c = sep <;>
        simp [splitLinesAux, h, ih, List.count_cons]

/-- The extraction loop succeeds exactly when every remaining commit has a
message splitting into at least two lines. -/
theorem extractLoop_isOk_iff (ud : UDiff) :
    ∀ (cs : List Commit) (t : List Blob),
      (extractLoop ud t cs).isOk = true ↔
        ∀ c ∈ cs, 2 ≤ (splitLines c.message).length := by
  intro cs
  induction cs with
  | nil => intro t; simp [extractLoop, Except.isOk, Except.toBool]
  | cons c cs ih =>
      intro t
      rw [extractLoop]
      cases hrec : commitRecord ud t c with
      | none =>
          have hlt : ¬ 2 ≤ (splitLines c.message).length := by
            have h2 := @commitRecord_isSome_iff ud t c
            rw [hrec] at h2
            simpa using h2
          simp [Except.isOk, Except.toBool, List.forall_mem_cons, hlt]
      | some r =>
          have hc2 : 2 ≤ (splitLines c.message).length := by
            have h2 := @commitRecord_isSome_iff ud t c
            rw [hrec] at h2
            simpa using h2
          cases hrest : extractLoop ud c.tree cs with
          | error e =>
              have hcs := ih c.tree
              rw [hrest] at hcs
              simp [Except.isOk, Except.toBool] at hcs
              simp [Except.isOk, Except.toBool, List.forall_mem_cons, hc2]
              exact hcs
          | ok rs =>
              have hcs := ih c.tree
              rw [hrest] at hcs
              simp [Except.isOk, Except.toBool] at hcs
              simp [Except.isOk, Except.toBool, List.forall_mem_cons, hc2]
              exact hcs

/-- The only error the extraction loop ever produces is the Python
ValueError of the unpacking assignment. -/
theorem extractLoop_error_value (ud : UDiff) :
    ∀ (cs : List Commit) (t : List Blob) (e : String),
      extractLoop ud t cs = .error e →
      e = "ValueError: not enough values to unpack" := by
  intro cs
  induction cs with
  | nil =>
      intro t e h
      rw [extractLoop] at h
      cases h
  | cons c cs ih =>
      intro t e h
      rw [extractLoop] at h
      cases hrec : commitRecord ud t c with
      | none =>
          rw [hrec] at h
          cases h
          rfl
      | some r =>
          rw [hrec] at h
          cases hrest : extractLoop ud c.tree cs with
          | error e2 =>
              rw [hrest] at h
              cases h
              exact ih c.tree _ hrest
          | ok rs =>
              rw [hrest] at h
              cases h

/-! C10 -/

/-- C10: extraction succeeds exactly when every commit message contains a
line break, that is when splitting it on line breaks yields at least two
elements; a repository holding a commit whose split has fewer than two
elements makes extract_repo_data fail with the unpacking ValueError. -/
theorem extract_needs_two_line_messages (ud : UDiff) (repo : List Commit) :
    ((extract_repo_data ud repo).isOk = true ↔
      ∀ c ∈ repo, 2 ≤ (splitLines c.message).length) ∧
    (∀ m : String, 2 ≤ (splitLines m).length ↔ '\n' ∈ m.data) ∧
    ((∃ c ∈ repo, (splitLines c.message).length < 2) →
      extract_repo_data ud repo =
        .error "ValueError: not enough values to unpack") := by
  have hiff : (extract_repo_data ud repo).isOk = true ↔
      ∀ c ∈ repo, 2 ≤ (splitLines c.message).length := by
    have h := extractLoop_isOk_iff ud repo.reverse []
    simpa [extract_repo_data, List.mem_reverse] using h
  refine ⟨hiff, ?_, ?_⟩
  · intro m
    rw [splitLines, splitLinesAux_length,
      ← List.count_pos_iff (a := '\n') (l := m.data)]
    omega
  · rintro ⟨c, hc, hlen⟩
    cases hE : extract_repo_data ud repo with
    | ok rs =>
        have hok : (extract_repo_data ud repo).isOk = true := by
          rw [hE]; rfl
        exact absurd (hiff.mp hok c hc) (by omega)
    | error e =>
        have he : extractLoop ud [] repo.reverse = .error e := by
          rw [← extract_repo_data]; exact hE
        rw [extractLoop_error_value ud repo.reverse [] e he]

/-- C10 witness: a repository with a single one-line commit message makes
extraction fail with the ValueError. -/
theorem extract_needs_two_line_messages_witness :
    extract_repo_data udEmpty [⟨"oneline", "hb", []⟩] =
      .error "ValueError: not enough values to unpack" :=
  (extract_needs_two_line_messages udEmpty [⟨"oneline", "hb", []⟩]).2.2
    ⟨⟨"oneline", "hb", []⟩, by decide, by decide⟩

/-! C3 -/

/-- C3: the record of a commit takes as title the element at index 0 of the
message split on line breaks, and as body the elements from index 2 onward
joined with line breaks, dropping the element at index 1. -/
theorem message_split_title_and_body (ud : UDiff) (prevTree : List Blob)
    (c : Commit) (r : CommitRecord)
    (h : commitRecord ud prevTree c = some r) :
    r.title = (splitLines c.message).headI ∧
      r.body = joinWith "\n" ((splitLines c.message).drop 2) := by
  unfold commitRecord at h
  rcases hs : splitLines c.message with _ | ⟨a, _ | ⟨b, rest⟩⟩ <;> rw [hs] at h
  · cases h
  · cases h
  · cases h
    exact ⟨rfl, rfl⟩

/-- C3 witness: a commit whose message is Fix bug, blank line, Details here
yields title Fix bug and body Details here. -/
theorem message_split_title_and_body_witness :
    ("Fix bug" : String) = (splitLines "Fix bug\n\nDetails here").headI ∧
      ("Details here" : String) =
        joinWith "\n" ((splitLines "Fix bug\n\nDetails here").drop 2) :=
  message_split_title_and_body udEmpty []
    ⟨"Fix bug\n\nDetails here", "h3", []⟩
    ⟨"Fix bug", "h3", "Details here", []⟩ rfl

/-! C4 -/

/-- C4: a diff entry one of whose present blobs has a MIME type not
starting with text produces no FileChange, and a commit record all of whose
diff entries are such has an empty changes sequence. -/
theorem binary_changes_skipped (ud : UDiff) :
    (∀ e : DiffEntry,
      ((e.a_blob.any fun b => !(startsWithStr "text" b.mime_type)) = true ∨
       (e.b_blob.any fun b => !(startsWithStr "text" b.mime_type)) = true) →
      processEntry ud e = none) ∧
    (∀ (prevTree : List Blob) (c : Commit) (r : CommitRecord),
      commitRecord ud prevTree c = some r →
      (∀ e ∈ treeDiff c.tree prevTree,
        (e.a_blob.any fun b => !(startsWithStr "text" b.mime_type)) = true ∨
        (e.b_blob.any fun b => !(startsWithStr "text" b.mime_type)) = true) →
      r.changes = []) := by
  have hskip : ∀ e : DiffEntry,
      ((e.a_blob.any fun b => !(startsWithStr "text" b.mime_type)) = true ∨
       (e.b_blob.any fun b => !(startsWithStr "text" b.mime_type)) = true) →
      processEntry ud e = none := by
    intro e he
    rcases he with h | h
    · simp [processEntry, h]
    · by_cases ha :
        (e.a_blob.any fun b => !(startsWithStr "text" b.mime_type)) = true
      · simp [processEntry, ha]
      · simp only [Bool.not_eq_true] at ha
        simp [processEntry, ha, h]
  refine ⟨hskip, ?_⟩
  intro prevTree c r h hall
  have hch : r.changes = (treeDiff c.tree prevTree).filterMap (processEntry ud) := by
    unfold commitRecord at h
    rcases hs : splitLines c.message with _ | ⟨a, _ | ⟨b, rest⟩⟩ <;> rw [hs] at h
    · cases h
    · cases h
    · cases h
      rfl
  rw [hch, List.filterMap_eq_nil_iff]
  intro e he
  exact hskip e (hall e he)

/-- C4 witness: a commit whose only change is a PNG image yields no
FileChange and an empty changes sequence. -/
theorem binary_changes_skipped_witness :
    processEntry udEmpty ⟨some ⟨"img.png", "image/png", "BIN"⟩, none⟩ = none ∧
      (⟨"add image", "h4", "", []⟩ : CommitRecord).changes = [] := by
  refine ⟨(binary_changes_skipped udEmpty).1 _ (Or.inl (by decide)), ?_⟩
  exact (binary_changes_skipped udEmpty).2 []
    ⟨"add image\n\n", "h4", [⟨"img.png", "image/png", "BIN"⟩]⟩
    ⟨"add image", "h4", "", []⟩ rfl (by decide)

/-! C2 helpers -/

/-- The changes of a record are the processed entries of the tree diff of
its commit against the previous revision. -/
theorem commitRecord_changes {ud : UDiff} {t : List Blob} {c : Commit}
    {r : CommitRecord} (h : commitRecord ud t c = some r) :
    r.changes = (treeDiff c.tree t).filterMap (processEntry ud) := by
  unfold commitRecord at h
  rcases hs : splitLines c.message with _ | ⟨a, _ | ⟨b, rest⟩⟩ <;> rw [hs] at h
  · cases h
  · cases h
  · cases h
    rfl

/-- In a tree with pairwise distinct paths, looking up the path of a member
blob finds that blob. -/
theorem lookupBlob_eq_of_nodup {l : List Blob} {b : Blob}
    (hnd : (l.map Blob.path).Nodup) (hb : b ∈ l) :
    lookupBlob l b.path = some b := by
  induction l with
  | nil => cases hb
  | cons a t ih =>
      rw [List.map_cons, List.nodup_cons] at hnd
      rcases List.mem_cons.mp hb with rfl | hbt
      · simp [lookupBlob]
      · have hne : ¬ (a.path == b.path) = true := by
          simp only [beq_iff_eq]
          intro he
          exact hnd.1 (he ▸ List.mem_map_of_mem Blob.path hbt)
        have := ih hnd.2 hbt
        simpa [lookupBlob, List.find?, hne] using this

/-! C2 -/

/-- C2 amended: for every changed path of every commit, the emitted unified
diff is computed with the PREVIOUS revision blob lines (the before or
original content) passed as the from side of the unified-diff routine and
the CURRENT commit blob lines (the after or modified content) passed as
the to side, with the file path used as both labels; an absent blob
contributes an empty line sequence. This is the reverse of the direction
the specification describes: the variables named modified and original in
the source hold the previous and the current content respectively, because
the a side of commit.diff(rev) belongs to the current commit. -/
theorem diff_from_previous_to_current (ud : UDiff) (prevTree : List Blob)
    (c : Commit) (r : CommitRecord) (h : commitRecord ud prevTree c = some r)
    (hc : (c.tree.map Blob.path).Nodup) (hp : (prevTree.map Blob.path).Nodup) :
    ∀ fc ∈ r.changes,
      fc.diff = joinWith "\n"
        (ud (optLines (lookupBlob prevTree fc.path))
            (optLines (lookupBlob c.tree fc.path)) fc.path fc.path) := by
  intro fc hfc
  rw [commitRecord_changes h] at hfc
  obtain ⟨e, he, hpe⟩ := List.mem_filterMap.mp hfc
  rcases List.mem_append.mp he with hcur | hprev
  · obtain ⟨b, hb, hsome⟩ := List.mem_filterMap.mp hcur
    have hblk : lookupBlob c.tree b.path = some b := lookupBlob_eq_of_nodup hc hb
    cases hlk : lookupBlob prevTree b.path with
    | none =>
        rw [hlk] at hsome
        cases hsome
        unfold processEntry at hpe
        by_cases hm : startsWithStr "text" b.mime_type
        · simp only [Option.any_some, Option.any_none, hm, Bool.not_true,
            if_neg, Bool.false_eq_true, not_false_eq_true, if_false] at hpe
          cases hpe
          simp [hlk, hblk, optLines]
        · simp only [Option.any_some, hm, Bool.not_false, if_pos] at hpe
          cases hpe
    | some pb =>
        rw [hlk] at hsome
        dsimp only at hsome
        by_cases hpb : pb = b
        · rw [if_pos hpb] at hsome
          cases hsome
        · rw [if_neg hpb] at hsome
          cases hsome
          unfold processEntry at hpe
          by_cases hma : startsWithStr "text" b.mime_type
          · by_cases hmb : startsWithStr "text" pb.mime_type
            · simp only [Option.any_some, hma, hmb, Bool.not_true,
                Bool.false_eq_true, not_false_eq_true, if_false] at hpe
              cases hpe
              simp [hlk, hblk, optLines]
            · simp only [Option.any_some, hma, hmb, Bool.not_true,
                Bool.not_false, Bool.false_eq_true, not_false_eq_true,
                if_false, if_pos] at hpe
              cases hpe
          · simp only [Option.any_some, hma, Bool.not_false, if_pos] at hpe
            cases hpe
  · obtain ⟨pb, hpb, hsome⟩ := List.mem_filterMap.mp hprev
    have hplk : lookupBlob prevTree pb.path = some pb :=
      lookupBlob_eq_of_nodup hp hpb
    cases hlk : lookupBlob c.tree pb.path with
    | none =>
        rw [hlk] at hsome
        cases hsome
        unfold processEntry at hpe
        by_cases hm : startsWithStr "text" pb.mime_type
        · simp only [Option.any_some, Option.any_none, hm, Bool.not_true,
            Bool.false_eq_true, not_false_eq_true, if_false] at hpe
          cases hpe
          simp [hlk, hplk, optLines]
        · simp only [Option.any_some, Option.any_none, hm, Bool.not_false,
            Bool.false_eq_true, not_false_eq_true, if_false, if_pos] at hpe
          cases hpe
    | some cb =>
        rw [hlk] at hsome
        cases hsome

/-- C2 witness: for the first demo commit, adding f.txt with content x, the
emitted diff equals the unified diff of the previous empty side as from and
the current content as to, labelled with the path on both sides. -/
theorem diff_from_previous_to_current_witness :
    (⟨"f.txt", "FROM\nTO\nx"⟩ : FileChange).diff = joinWith "\n"
      (udTag (optLines (lookupBlob ([] : List Blob) "f.txt"))
             (optLines (lookupBlob c1demo.tree "f.txt")) "f.txt" "f.txt") :=
  diff_from_previous_to_current udTag [] c1demo
    ⟨"init", "hash1", "first", [⟨"f.txt", "FROM\nTO\nx"⟩]⟩ rfl
    (by decide) (by decide) ⟨"f.txt", "FROM\nTO\nx"⟩ (by decide)

/-- C2 counterexample: the first demo commit adds f.txt with content x; the
change the extractor emits carries the diff FROM TO x, produced by passing
the previous (absent, hence empty) side as the from argument, whereas
passing the current commit content as the from side, as the claim states,
would produce FROM x TO. -/
theorem diff_from_current_counterexample :
    commitRecord udTag [] c1demo =
      some ⟨"init", "hash1", "first", [⟨"f.txt", "FROM\nTO\nx"⟩]⟩ ∧
    ("FROM\nTO\nx" : String) ≠ joinWith "\n"
      (udTag (optLines (lookupBlob c1demo.tree "f.txt"))
             (optLines (lookupBlob ([] : List Blob) "f.txt")) "f.txt" "f.txt") :=
  ⟨rfl, by decide⟩

/-! Renderer helpers -/

/-- A page write is never the index write. -/
theorem isIndexWrite_pageWrite (tmpl : TemplateFn) (md : Markdown)
    (slugify : Slugifier) (toc : List TocEntry) (p : CommitRecord) :
    (pageWrite tmpl md slugify toc p).isIndexWrite = false := rfl

/-- A page write is a page write. -/
theorem isPageWrite_pageWrite (tmpl : TemplateFn) (md : Markdown)
    (slugify : Slugifier) (toc : List TocEntry) (p : CommitRecord) :
    (pageWrite tmpl md slugify toc p).isPageWrite = true := rfl

/-- With the index flag cleared, the render loop performs exactly the page
writes, in order. -/
theorem renderLoop_false (tmpl : TemplateFn) (md : Markdown)
    (slugify : Slugifier) (toc : List TocEntry) :
    ∀ data : List CommitRecord,
      renderLoop tmpl md slugify toc false data =
        data.map (pageWrite tmpl md slugify toc) := by
  intro data
  induction data with
  | nil => rfl
  | cons p rest ih => simp [renderLoop, ih]

/-- The writes of render_repo_data on a nonempty record list: the
stylesheet copy, the first page, the index copy of the first page, then
one page write per remaining record. -/
theorem render_writes_cons (tmpl : TemplateFn) (md : Markdown)
    (slugify : Slugifier) (stylesContent : String) (r0 : CommitRecord)
    (rest : List CommitRecord) :
    (render_repo_data tmpl md slugify stylesContent (r0 :: rest)).1 =
      FsWrite.styles stylesContent ::
        pageWrite tmpl md slugify (buildToc slugify (r0 :: rest)) r0 ::
        FsWrite.index
          (tmpl (pageContext md (buildToc slugify (r0 :: rest)) r0)) ::
        rest.map (pageWrite tmpl md slugify (buildToc slugify (r0 :: rest))) := by
  simp [render_repo_data, renderLoop, renderLoop_false, pageWrite]

/-- Skipping an initial segment on which a search predicate fails. -/
theorem find?_append_of_none {α : Type} {p : α → Bool} :
    ∀ (A B : List α), (∀ x ∈ A, p x = false) →
      (A ++ B).find? p = B.find? p := by
  intro A
  induction A with
  | nil => intro B _; rfl
  | cons a t ih =>
      intro B h
      rw [List.cons_append,
        List.find?_cons_of_neg _ (by simp [h a (List.mem_cons_self a t)])]
      exact ih B (fun x hx => h x (List.mem_cons_of_mem a hx))

/-- Distinct slugs yield distinct html filenames. -/
theorem html_filename_ne (slugify : Slugifier) {t1 t2 : String}
    (h : slugify t1 ≠ slugify t2) :
    html_filename slugify t1 ≠ html_filename slugify t2 := by
  intro he
  have hd := congrArg String.data he
  rw [html_filename, html_filename, String.data_append,
    String.data_append] at hd
  exact h (String.ext (List.append_inj' hd rfl).1)

/-- Page writes all pass the page-write filter. -/
theorem filter_isPageWrite_map (tmpl : TemplateFn) (md : Markdown)
    (slugify : Slugifier) (toc : List TocEntry) (l : List CommitRecord) :
    (l.map (pageWrite tmpl md slugify toc)).filter FsWrite.isPageWrite =
      l.map (pageWrite tmpl md slugify toc) := by
  induction l with
  | nil => rfl
  | cons p t ih => simp [List.filter_cons, isPageWrite_pageWrite, ih]

/-! C5 -/

/-- C5: on a nonempty record sequence the renderer performs the index.html
write exactly once, with the rendered output of the first record, and the
same content is also written to the first record slugified filename. -/
theorem index_written_once_matching_first_page (tmpl : TemplateFn)
    (md : Markdown) (slugify : Slugifier) (stylesContent : String)
    (r0 : CommitRecord) (rest : List CommitRecord) :
    ((render_repo_data tmpl md slugify stylesContent (r0 :: rest)).1.filter
        FsWrite.isIndexWrite) =
      [FsWrite.index
        (tmpl (pageContext md (buildToc slugify (r0 :: rest)) r0))] ∧
      FsWrite.page (html_filename slugify r0.title)
          (tmpl (pageContext md (buildToc slugify (r0 :: rest)) r0)) ∈
        (render_repo_data tmpl md slugify stylesContent (r0 :: rest)).1 := by
  constructor
  · rw [render_writes_cons]
    simp [FsWrite.isIndexWrite, List.filter_map, Function.comp,
      isIndexWrite_pageWrite, pageWrite]
  · rw [render_writes_cons]
    simp [pageWrite]

/-! C6 -/

/-- C6: when an earlier record and a later record have titles with the same
slug, and no record after the later one shares that slug, the final content
of the file at that slug filename is the later record rendered output: the
later write silently overwrites the earlier one. -/
theorem slug_collision_last_write_wins (tmpl : TemplateFn) (md : Markdown)
    (slugify : Slugifier) (stylesContent : String)
    (pre post : List CommitRecord) (ri rj : CommitRecord)
    (hmem : ri ∈ pre) (hcollide : slugify ri.title = slugify rj.title)
    (hlast : ∀ q ∈ post, slugify q.title ≠ slugify rj.title) :
    finalContent
        (render_repo_data tmpl md slugify stylesContent
          (pre ++ rj :: post)).1
        (html_filename slugify rj.title) =
      some (tmpl (pageContext md (buildToc slugify (pre ++ rj :: post)) rj)) := by
  cases pre with
  | nil => cases hmem
  | cons p0 pre2 =>
      rw [List.cons_append, render_writes_cons, finalContent]
      have hskip : ∀ x ∈ (post.map (pageWrite tmpl md slugify
          (buildToc slugify (p0 :: (pre2 ++ rj :: post))))).reverse,
          (x.fileName == html_filename slugify rj.title) = false := by
        intro x hx
        rw [List.mem_reverse] at hx
        obtain ⟨q, hq, rfl⟩ := List.mem_map.mp hx
        simp only [pageWrite, FsWrite.fileName, beq_eq_false_iff_ne, ne_eq]
        exact html_filename_ne slugify (hlast q hq)
      simp only [List.reverse_cons, List.map_append, List.map_cons,
        List.reverse_append, List.append_assoc, List.cons_append,
        List.nil_append, List.singleton_append]
      rw [find?_append_of_none _ _ hskip,
        List.find?_cons_of_pos _ (by simp [pageWrite, FsWrite.fileName])]
      rfl

/-- C6 witness: two records whose titles both slugify to fix-bug leave one
file for that slug, holding the later record rendered output. -/
theorem slug_collision_last_write_wins_witness :
    finalContent (render_repo_data tmpl0 md0 (fun _ => "fix-bug") "css"
        ([⟨"Fix Bug!", "hA", "a", []⟩] ++ ⟨"fix-bug", "hB", "b", []⟩ :: [])).1
        (html_filename (fun _ => "fix-bug") "fix-bug") =
      some (tmpl0 (pageContext md0
        (buildToc (fun _ => "fix-bug")
          ([⟨"Fix Bug!", "hA", "a", []⟩] ++ ⟨"fix-bug", "hB", "b", []⟩ :: []))
        ⟨"fix-bug", "hB", "b", []⟩)) :=
  slug_collision_last_write_wins tmpl0 md0 (fun _ => "fix-bug") "css"
    [⟨"Fix Bug!", "hA", "a", []⟩] [] ⟨"Fix Bug!", "hA", "a", []⟩
    ⟨"fix-bug", "hB", "b", []⟩ (by decide) rfl (by simp)

/-! C7 -/

/-- C7 amended: rendering builds, for each page context, fresh FileChange
values whose diff is the markdown rendering of the original diff wrapped in
a fenced code block tagged diff; the records produced by extraction are
left unchanged, their diff fields still hold the unified-diff text. -/
theorem render_leaves_records_unchanged (tmpl : TemplateFn) (md : Markdown)
    (slugify : Slugifier) (stylesContent : String) (data : List CommitRecord)
    (toc : List TocEntry) (page : CommitRecord) :
    (render_repo_data tmpl md slugify stylesContent data).2 = data ∧
      (pageContext md toc page).changes =
        page.changes.map (fun change =>
          ⟨change.path,
            render_markdown md ("``` diff\n" ++ change.diff ++ "\n```")⟩) :=
  ⟨rfl, rfl⟩

/-- C7 counterexample: after rendering a record whose only change holds the
diff text x, the extracted record still holds x, not the HTML rendering of
the fenced code block, so the diff field is not replaced in place. -/
theorem render_in_place_counterexample :
    (render_repo_data tmpl0 md0 slug0 "css"
        [⟨"t", "h", "b", [⟨"f", "x"⟩]⟩]).2 =
      [⟨"t", "h", "b", [⟨"f", "x"⟩]⟩] ∧
    ([⟨"t", "h", "b", [⟨"f", "x"⟩]⟩] : List CommitRecord) ≠
      ([⟨"t", "h", "b", [⟨"f", "x"⟩]⟩] : List CommitRecord).map (fun page =>
        { page with changes := page.changes.map (renderChange md0) }) :=
  ⟨rfl, by decide⟩

/-! C8 -/

/-- C8: the table of contents is built once from the records in input
order, each entry holding the slugified title with an html extension as
its path, and the page writes are exactly one per record, in order, all
rendered against that same table of contents. -/
theorem toc_built_once_and_shared (tmpl : TemplateFn) (md : Markdown)
    (slugify : Slugifier) (stylesContent : String)
    (data : List CommitRecord) :
    buildToc slugify data =
      data.map (fun page =>
        ⟨page.title, "./" ++ html_filename slugify page.title⟩) ∧
    (∀ title : String,
      html_filename slugify title = slugify title ++ ".html") ∧
    (render_repo_data tmpl md slugify stylesContent data).1.filter
        FsWrite.isPageWrite =
      data.map (pageWrite tmpl md slugify (buildToc slugify data)) := by
  refine ⟨rfl, fun _ => rfl, ?_⟩
  cases data with
  | nil => rfl
  | cons r0 rest =>
      rw [render_writes_cons]
      simp only [List.filter_cons, FsWrite.isIndexWrite, FsWrite.isPageWrite,
        filter_isPageWrite_map]
      rfl

/-! C9 -/

/-- C9: with fewer than two argv entries, main prints to standard output
and exits with code 1; with a repository path that does not exist, main
prints to standard error and exits with code 1; in both cases the
extraction and rendering pipeline is never started. -/
theorem cli_argument_and_path_checks (pathExists : String → Bool)
    (repoAt : String → List Commit) (ud : UDiff) (tmpl : TemplateFn)
    (md : Markdown) (slugify : Slugifier) (stylesContent : String) :
    (∀ argv : List String, argv.length < 2 →
      main argv pathExists repoAt ud tmpl md slugify stylesContent =
        ⟨some "Please provider a repo\n", none, some 1, none⟩) ∧
    (∀ (a repo : String) (rest : List String), pathExists repo = false →
      main (a :: repo :: rest) pathExists repoAt ud tmpl md slugify
          stylesContent =
        ⟨none, some (repo ++ " doesn\x27t exist"), some 1, none⟩) := by
  constructor
  · intro argv h
    match argv with
    | [] => rfl
    | [x] => rfl
    | x :: y :: rest =>
        exfalso
        simp [List.length_cons] at h
        omega
  · intro a repo rest h
    simp [main, h]

/-- C9 witness: a call without the repository argument exits through the
standard output branch, and a call with a missing path exits through the
standard error branch; neither starts the pipeline. -/
theorem cli_argument_and_path_checks_witness :
    main ["prog"] (fun _ => false) (fun _ => []) udEmpty tmpl0 md0 slug0
        "css" =
      ⟨some "Please provider a repo\n", none, some 1, none⟩ ∧
    main ["prog", "/nope"] (fun _ => false) (fun _ => []) udEmpty tmpl0 md0
        slug0 "css" =
      ⟨none, some ("/nope" ++ " doesn\x27t exist"), some 1, none⟩ := by
  refine ⟨?_, ?_⟩
  · exact (cli_argument_and_path_checks (fun _ => false) (fun _ => [])
      udEmpty tmpl0 md0 slug0 "css").1 ["prog"] (by decide)
  · exact (cli_argument_and_path_checks (fun _ => false) (fun _ => [])
      udEmpty tmpl0 md0 slug0 "css").2 "prog" "/nope" [] rfl

end GitWebExporter
